import Mathlib

/-!
Shallow embedding of the UltraAgent orchestration pipeline of the
Vibecoder-Claude repository (class `UltraAgent` in `src/cli/utils/progress.ts`,
plus its `ConfigManager` collaborator). JavaScript strings are modelled as
Lean `String` values; the regular-expression based scanning and matching used
by the source is implemented explicitly on `List Char`, mirroring the
backtracking behaviour of the concrete regexes appearing in the source
(leftmost match, greedy quantifiers trying longest first, alternation in
written order). Only the ASCII fragments of `\s`, `\w`, `toLowerCase` and
`trim` are modelled, which covers every character the source patterns and the
inputs considered here use.
-/

set_option maxRecDepth 100000

namespace Vibecoder

/-! ### Character classes and basic list/string helpers -/

/-- JS regex class `\w`, i.e. `[A-Za-z0-9_]`. -/
def isWordChar (c : Char) : Bool := c.isAlphanum || c == '_'

/-- JS regex class `\s` (ASCII fragment). -/
def isWs (c : Char) : Bool := c.isWhitespace

/-- JS `String.prototype.startsWith` on character lists. -/
def hasPrefixL : List Char → List Char → Bool
  | _, [] => true
  | [], _ :: _ => false
  | c :: cs, p :: ps => c == p && hasPrefixL cs ps

/-- JS `String.prototype.includes` on character lists. -/
def hasInfixL (s sub : List Char) : Bool :=
  match s with
  | [] => sub.isEmpty
  | c :: t => hasPrefixL (c :: t) sub || hasInfixL t sub

/-- JS `String.prototype.endsWith` on character lists. -/
def hasSuffixL (s suf : List Char) : Bool := hasPrefixL s.reverse suf.reverse

/-- Length of the maximal run of characters satisfying `p` at the head. -/
def maxRun (p : Char → Bool) (t : List Char) : Nat := (t.takeWhile p).length

/-- The list `[hi, hi-1, ..., lo]` (empty when `hi < lo`); used to enumerate
the candidate lengths of a greedy quantifier, longest first. -/
def downFromTo (hi lo : Nat) : List Nat :=
  (List.range (hi + 1 - lo)).map (fun i => hi - i)

/-- First `some` produced by `f` over `l`, in order: the backtracking order of
a regex alternation or quantifier. -/
def firstSome? : List α → (α → Option β) → Option β
  | [], _ => none
  | x :: xs, f =>
    match f x with
    | some y => some y
    | none => firstSome? xs f

/-- JS `String.prototype.split` with a single-character separator (keeps empty
fragments, and `"".split(sep) = [""]`). -/
def jsSplit (sep : Char) : List Char → List (List Char)
  | [] => [[]]
  | c :: cs =>
    if c == sep then [] :: jsSplit sep cs
    else
      match jsSplit sep cs with
      | [] => [[c]]
      | h :: t => (c :: h) :: t

/-- JS `String.prototype.trim` (ASCII whitespace fragment). -/
def trimL (cs : List Char) : List Char :=
  ((cs.dropWhile isWs).reverse.dropWhile isWs).reverse

/-- JS `String.prototype.toLowerCase` (ASCII fragment). -/
def jsToLower (s : String) : String := String.mk (s.data.map Char.toLower)

/-- The last `n` elements of a list, as produced by JS `Array.prototype.slice`
with a negative index. -/
def lastN (n : Nat) (l : List α) : List α := l.drop (l.length - n)

/-! ### Fenced code block scanning

The source scans the AI response with the global regex
/```(\w+)\n([\s\S]*?)```/g  (UltraAgent.extractCodeBlocks). -/

/-- Record for one raw regex match of the fence pattern: capture 1 (language),
capture 2 (code, untrimmed) and the match index in the response. -/
structure RawBlock where
  language : List Char
  code : List Char
  index : Nat
deriving DecidableEq

/-- Split a character list at the first occurrence of a triple-backtick fence,
mirroring the lazy quantifier followed by the literal closing fence. -/
def splitAtFence : List Char → Option (List Char × List Char)
  | '\x60' :: '\x60' :: '\x60' :: rest => some ([], rest)
  | c :: cs => (splitAtFence cs).map (fun p => (c :: p.1, p.2))
  | [] => none

/-- Try to match the fence pattern at the head of `cs`. Returns the language,
the raw code, the remainder after the closing fence, and the match length.
The `\w+` is greedy and must be followed by a newline; the code is the
shortest run up to a closing fence. -/
def matchFence : List Char → Option (List Char × List Char × List Char × Nat)
  | '\x60' :: '\x60' :: '\x60' :: t =>
    let lang := t.takeWhile isWordChar
    if lang.isEmpty then none
    else
      match t.drop lang.length with
      | '\n' :: t2 =>
        match splitAtFence t2 with
        | some (code, rest) => some (lang, code, rest, 3 + lang.length + 1 + code.length + 3)
        | none => none
      | _ => none
  | _ => none

/-- Scan for successive non-overlapping fence matches, advancing one position
when no match starts at the current position (how a global regex searches),
and past the whole match otherwise (regex `lastIndex`). The fuel is the
remaining length, which suffices since every step consumes a character. -/
def scanBlocksAux : Nat → List Char → Nat → List RawBlock
  | 0, _, _ => []
  | _ + 1, [], _ => []
  | fuel + 1, c :: rest, pos =>
    match matchFence (c :: rest) with
    | some (lang, code, rest2, len) =>
      { language := lang, code := code, index := pos } :: scanBlocksAux fuel rest2 (pos + len)
    | none => scanBlocksAux fuel rest (pos + 1)

/-- All raw fence matches of the response, with their match indices. -/
def scanBlocks (response : List Char) : List RawBlock :=
  scanBlocksAux response.length response 0

/-! ### Path extraction before a block (UltraAgent.extractPathBeforeBlock)

The source takes the 300 characters before the block and applies, in order,
the patterns
  /(?:File|Arquivo|Path|Caminho):\s*`?([^\n`]+\.[a-zA-Z0-9]+)`?\s*$/im
  /`([^`]+\.[a-zA-Z]{2,4})`\s*$/
returning capture 1 of the first pattern that matches. -/

/-- `\s*$` under the `m` flag: some amount of whitespace up to the end of the
string or up to (just before) a newline. -/
def wsToLineEnd : List Char → Bool
  | [] => true
  | c :: t => if c == '\n' then true else isWs c && wsToLineEnd t

/-- `\s*$` without the `m` flag: the whole remainder is whitespace. -/
def wsToEnd (t : List Char) : Bool := t.all isWs

/-- Class `[^\n`]`. -/
def notNlBt (c : Char) : Bool := !(c == '\n') && !(c == '\x60')

/-- Class `[^`]`. -/
def notBt (c : Char) : Bool := !(c == '\x60')

/-- Backtracking matcher for a fragment `A+ '.' B{lo,hi}` (with `hi? = none`
meaning unbounded `B+`) followed by a continuation, at the head of `t`.
Both quantifiers are greedy: candidate lengths are tried longest first, the
outer one backtracking over the inner one, exactly as a regex engine does.
Returns the captured characters of the first successful alternative. -/
def matchADotB (clsA clsB : Char → Bool) (lo : Nat) (hi? : Option Nat)
    (cont : List Char → Bool) (t : List Char) : Option (List Char) :=
  firstSome? (downFromTo (maxRun clsA t) 1) (fun a =>
    match t.drop a with
    | '.' :: t2 =>
      let mb := maxRun clsB t2
      let hi := match hi? with | some h => min h mb | none => mb
      firstSome? (downFromTo hi lo) (fun b =>
        if cont (t2.drop b) then some (t.take a ++ '.' :: t2.take b) else none)
    | _ => none)

/-- Tail of the first path pattern after the capture group: `` `?\s*$ `` with
multiline `$` (the optional backtick is greedy). -/
def tailLabelPat : List Char → Bool
  | '\x60' :: t => wsToLineEnd t || wsToLineEnd ('\x60' :: t)
  | t => wsToLineEnd t

/-- The keyword alternatives of the first path pattern, in written order. -/
def pathLabelKeywords : List (List Char) :=
  ["file".data, "arquivo".data, "path".data, "caminho".data]

/-- Case-insensitive literal prefix match (regex `i` flag, ASCII fragment):
returns the remainder on success. First argument is the keyword. -/
def stripPrefixCI : List Char → List Char → Option (List Char)
  | [], t => some t
  | _ :: _, [] => none
  | k :: ks, c :: cs => if c.toLower == k.toLower then stripPrefixCI ks cs else none

/-- After the keyword and colon of the first path pattern:
`` \s*`?([^\n`]+\.[a-zA-Z0-9]+) `` followed by `tailLabelPat`. The `\s*` is
greedy with backtracking, then the optional backtick, then the group. -/
def afterColonLabel (t : List Char) : Option (List Char) :=
  firstSome? (downFromTo (maxRun isWs t) 0) (fun w =>
    let t1 := t.drop w
    match t1 with
    | '\x60' :: t2 =>
      match matchADotB notNlBt (fun c => c.isAlphanum) 1 none tailLabelPat t2 with
      | some r => some r
      | none => matchADotB notNlBt (fun c => c.isAlphanum) 1 none tailLabelPat t1
    | _ => matchADotB notNlBt (fun c => c.isAlphanum) 1 none tailLabelPat t1)

/-- Try the first path pattern at the head of `t`: one of the keywords
(case-insensitive), a colon, then `afterColonLabel`. -/
def tryLabelPattern (t : List Char) : Option (List Char) :=
  firstSome? pathLabelKeywords (fun kw =>
    match stripPrefixCI kw t with
    | some (':' :: t2) => afterColonLabel t2
    | _ => none)

/-- Tail of the second path pattern: a literal backtick then `\s*$` anchored
at the very end of the lookback window (no `m` flag). -/
def tailBacktickPat : List Char → Bool
  | '\x60' :: t => wsToEnd t
  | _ => false

/-- Try the second path pattern at the head of `t`:
`` `([^`]+\.[a-zA-Z]{2,4})` `` followed by `\s*$`. -/
def tryBacktickPattern : List Char → Option (List Char)
  | '\x60' :: t => matchADotB notBt (fun c => c.isAlpha) 2 (some 4) tailBacktickPat t
  | _ => none

/-- Leftmost-match search: try the position matcher at every suffix, earliest
position first (how a non-global regex `match` searches). -/
def searchPos (f : List Char → Option (List Char)) : List Char → Option (List Char)
  | [] => none
  | c :: rest =>
    match f (c :: rest) with
    | some r => some r
    | none => searchPos f rest

/-- Normalisation applied to the captured path:
`match[1].trim().replace(/`/g, '').replace(/\\/g, '/')`. -/
def normalizePath (cs : List Char) : List Char :=
  ((trimL cs).filter (fun c => !(c == '\x60'))).map (fun c => if c == '\\' then '/' else c)

/-- UltraAgent.extractPathBeforeBlock: search the bounded 300-character window
before the block with the two patterns in order. -/
def extractPathBeforeBlock (response : List Char) (blockIndex : Nat) : Option (List Char) :=
  let start := blockIndex - 300
  let beforeBlock := (response.take blockIndex).drop start
  match searchPos tryLabelPattern beforeBlock with
  | some m => some (normalizePath m)
  | none =>
    match searchPos tryBacktickPattern beforeBlock with
    | some m => some (normalizePath m)
    | none => none

/-! ### Constants of the source (progress.ts, CONSTANTS section) -/

def RELEVANT_EXTENSIONS : List String :=
  [".ts", ".tsx", ".js", ".jsx", ".vue", ".py", ".java", ".go", ".rs", ".c", ".cpp", ".cs"]

def IGNORE_DIRECTORIES : List String :=
  ["node_modules", ".git", "dist", "build", "out", ".next", "coverage", ".vscode", "target", "vendor"]

def MAX_SCAN_FILES : Nat := 50

def MAX_SCAN_DEPTH : Nat := 4

def MIN_CODE_LENGTH : Nat := 200

def MAX_CONTEXT_SIZE : Nat := 3000

/-! ### Code block filtering (UltraAgent.isCommandExample / isValidCodeBlock) -/

/-- The command prefixes of UltraAgent.isCommandExample. -/
def commandPrefixes : List (List Char) :=
  ["npm ".data, "yarn ".data, "git ".data, "cd ".data, "mkdir ".data, "touch ".data, "rm ".data]

/-- The marker substrings of UltraAgent.isCommandExample. -/
def exampleMarkers : List (List Char) :=
  ["# example".data, "// example".data, "# exemplo".data, "// exemplo".data]

/-- UltraAgent.isCommandExample: the lowercased code starts with a shell
command prefix or contains a marker comment. -/
def isCommandExample (code : List Char) : Bool :=
  let lower := code.map Char.toLower
  commandPrefixes.any (fun p => hasPrefixL lower p) ||
    exampleMarkers.any (fun m => hasInfixL lower m)

/-- The extension allow-list of UltraAgent.isValidCodeBlock. -/
def validExts : List (List Char) :=
  ["ts".data, "tsx".data, "js".data, "jsx".data, "json".data, "md".data, "html".data,
   "css".data, "scss".data, "yaml".data, "yml".data]

/-- The suspicious bare first segments of UltraAgent.isValidCodeBlock. -/
def suspiciousParts : List (List Char) :=
  ["heap".data, "stack".data, "memory".data, "buffer".data, "cache".data]

/-- UltraAgent.isValidCodeBlock. A missing path, or an empty path (falsy in
JS), or a path without a dot, fails; the extension (text after the last dot,
lowercased) must be allow-listed; a suspicious bare first segment with no
forward slash fails. The code and language parameters are unused, as in the
source. -/
def isValidCodeBlock (code language : List Char) (path? : Option (List Char)) : Bool :=
  match path? with
  | none => false
  | some path =>
    if path.isEmpty || !(path.contains '.') then false
    else
      let ext := ((jsSplit '.' path).getLastD []).map Char.toLower
      if ext.isEmpty || !(validExts.contains ext) then false
      else
        let firstPart := ((jsSplit '\\' ((jsSplit '/' path).headD [])).headD []).map Char.toLower
        if suspiciousParts.contains firstPart && !(path.contains '/') then false
        else true

/-! ### Code blocks (interface CodeBlock, UltraAgent.extractCodeBlocks) -/

structure CodeBlockMetadata where
  lineCount : Nat
  charCount : Nat
  hasImports : Bool
  hasFunctions : Bool
deriving DecidableEq

structure CodeBlock where
  code : String
  language : String
  path : Option String
  metadata : CodeBlockMetadata
deriving DecidableEq

/-- UltraAgent.analyzeCodeBlock. The import test is the regex
/import |require\(|from ['"]/ and the function test is /function |=>|class /. -/
def analyzeCodeBlock (code : List Char) : CodeBlockMetadata :=
  { lineCount := (jsSplit '\n' code).length
    charCount := code.length
    hasImports := hasInfixL code "import ".data || hasInfixL code "require(".data ||
      hasInfixL code ("from ".data ++ ['\x27']) || hasInfixL code ("from ".data ++ ['"'])
    hasFunctions := hasInfixL code "function ".data || hasInfixL code "=>".data ||
      hasInfixL code "class ".data }

/-- UltraAgent.extractCodeBlocks: scan the fenced blocks; trim each block,
drop blocks shorter than `MIN_CODE_LENGTH` or looking like command examples;
extract the path from the lookback window; keep the block only when
`isValidCodeBlock` passes. -/
def extractCodeBlocks (response : String) : List CodeBlock :=
  (scanBlocks response.data).filterMap (fun rb =>
    let code := trimL rb.code
    if code.length < MIN_CODE_LENGTH then none
    else if isCommandExample code then none
    else
      let path? := extractPathBeforeBlock response.data rb.index
      if isValidCodeBlock code rb.language path? then
        some { code := String.mk code, language := String.mk rb.language,
               path := path?.map String.mk, metadata := analyzeCodeBlock code }
      else none)

/-! ### Code validation (UltraAgent.validateCode) -/

structure ValidationResult where
  isValid : Bool
  isComplete : Bool
  warnings : List String
  errors : List String
  suggestions : List String
deriving DecidableEq

/-- Number of occurrences of a character (the source counts regex matches of
the single character). -/
def countChar (c : Char) (s : List Char) : Nat := (s.filter (fun d => d == c)).length

/-- UltraAgent.validateCode. Only the four script languages are checked; each
step mirrors one mutation of the result record in the source ('\x7b' and
'\x7d' denote the brace characters). -/
def validateCode (code language : String) : ValidationResult :=
  let base : ValidationResult :=
    { isValid := true, isComplete := true, warnings := [], errors := [], suggestions := [] }
  if language == "typescript" || language == "javascript" ||
      language == "tsx" || language == "jsx" then
    let cs := code.data
    let r1 :=
      if countChar '\x7b' cs != countChar '\x7d' cs then
        { base with errors := base.errors ++ ["Unbalanced braces"],
                    isComplete := false, isValid := false }
      else base
    let r2 :=
      if countChar '(' cs != countChar ')' cs then
        { r1 with errors := r1.errors ++ ["Unbalanced parentheses"],
                  isComplete := false, isValid := false }
      else r1
    let hasDefinitions := hasInfixL cs "function ".data || hasInfixL cs "=>".data ||
      hasInfixL cs "class ".data
    let r3 :=
      if !hasDefinitions && cs.length > 100 then
        { r2 with warnings := r2.warnings ++ ["No function or class definitions found"] }
      else r2
    let r4 :=
      if cs.length < MIN_CODE_LENGTH then
        { r3 with warnings := r3.warnings ++ ["Code is very short (< 200 characters)"],
                  suggestions := r3.suggestions ++ ["Request more complete implementation"] }
      else r3
    let lastLines := List.intercalate ['\n'] (lastN 3 (jsSplit '\n' cs))
    let r5 :=
      if (hasInfixL lastLines "/**".data && !(hasInfixL lastLines "*/".data)) ||
          (hasInfixL lastLines "/*".data && !(hasInfixL lastLines "*/".data)) then
        { r4 with errors := r4.errors ++ ["Incomplete comment block at end of file"],
                  isComplete := false }
      else r4
    r5
  else base

/-! ### Intent analysis (UltraAgent.analyzeIntent) -/

structure ActionFlags where
  develop : Bool
  debug : Bool
  optimize : Bool
  refactor : Bool
  test : Bool
  document : Bool
  analyze : Bool
deriving DecidableEq

structure CommandIntent where
  targetFolder : Option String
  targetFile : Option String
  actions : ActionFlags
  fullCommand : String
  confidence : ℚ
deriving DecidableEq

/-- Keyword alternatives of the folder pattern
/(?:pasta|folder|dir|directory|diretório|diretorio)\s+([^\s]+)/i in written
order. -/
def folderKeywords : List (List Char) :=
  ["pasta", "folder", "dir", "directory", "diretório", "diretorio"].map String.data

/-- First folder pattern at a position: a keyword, `\s+`, then a greedy
non-whitespace capture. -/
def tryFolderP1 (t : List Char) : Option (List Char) :=
  firstSome? folderKeywords (fun kw =>
    match stripPrefixCI kw t with
    | none => none
    | some t1 =>
      let w := maxRun isWs t1
      if w == 0 then none
      else
        let r := (t1.drop w).takeWhile (fun c => !(isWs c))
        if r.isEmpty then none else some r)

/-- Character class of the second folder pattern: letters, digits,
underscore, hyphen, forward slash, backslash. -/
def folderPathChar (c : Char) : Bool :=
  c.isAlphanum || c == '_' || c == '-' || c == '/' || c == '\\'

/-- Second folder pattern (keyword em or in, whitespace, a greedy run of
`folderPathChar` captured, then a literal forward slash) at a position: the
greedy capture backtracks until a slash follows. -/
def tryFolderP2 (t : List Char) : Option (List Char) :=
  firstSome? ["em".data, "in".data] (fun kw =>
    match stripPrefixCI kw t with
    | none => none
    | some t1 =>
      let w := maxRun isWs t1
      if w == 0 then none
      else
        let t2 := t1.drop w
        firstSome? (downFromTo (maxRun folderPathChar t2) 1) (fun a =>
          match t2.drop a with
          | '/' :: _ => some (t2.take a)
          | _ => none))

/-- The folder patterns are tried in order, first match wins. -/
def extractTargetFolder (command : List Char) : Option (List Char) :=
  match searchPos tryFolderP1 command with
  | some r => some r
  | none => searchPos tryFolderP2 command

/-- First file pattern /(?:arquivo|file)\s+([^\s]+\.[a-z]+)/i at a position. -/
def tryFileP1 (t : List Char) : Option (List Char) :=
  firstSome? ["arquivo".data, "file".data] (fun kw =>
    match stripPrefixCI kw t with
    | none => none
    | some t1 =>
      let w := maxRun isWs t1
      if w == 0 then none
      else matchADotB (fun c => !(isWs c)) (fun c => c.isAlpha) 1 none
        (fun _ => true) (t1.drop w))

/-- Class `[a-zA-Z0-9_\-]` of the second file pattern. -/
def fileWordChar (c : Char) : Bool := c.isAlphanum || c == '_' || c == '-'

/-- Second file pattern /([a-zA-Z0-9_\-]+\.[a-z]{2,4})/i at a position. -/
def tryFileP2 (t : List Char) : Option (List Char) :=
  matchADotB fileWordChar (fun c => c.isAlpha) 2 (some 4) (fun _ => true) t

/-- The file patterns are tried in order, first match wins. -/
def extractTargetFile (command : List Char) : Option (List Char) :=
  match searchPos tryFileP1 command with
  | some r => some r
  | none => searchPos tryFileP2 command

/-- The keyword families of the seven action patterns of
UltraAgent.analyzeIntent; each pattern is an alternation of plain literals
tested against the lowercased command. -/
def developKeywords : List (List Char) :=
  ["desenvolv", "cri", "implement", "cod", "faz", "fazer", "build", "create"].map String.data

def debugKeywords : List (List Char) :=
  ["debug", "corrig", "fix", "consert", "erro", "bug", "resolve"].map String.data

def optimizeKeywords : List (List Char) :=
  ["otimiz", "melhor", "performance", "rapido", "rápido", "speed", "faster"].map String.data

def refactorKeywords : List (List Char) :=
  ["refator", "limpar", "organiz", "estrutur", "clean", "reorganize"].map String.data

def testKeywords : List (List Char) :=
  ["test", "testa", "unit", "integration", "e2e"].map String.data

def documentKeywords : List (List Char) :=
  ["document", "doc", "coment", "readme", "explain"].map String.data

def analyzeKeywords : List (List Char) :=
  ["analis", "revis", "verific", "check", "review", "audit"].map String.data

/-- An alternation of literals matches the text exactly when one of them is a
substring of it. -/
def matchesAny (normalized : List Char) (kws : List (List Char)) : Bool :=
  kws.any (fun k => hasInfixL normalized k)

/-- The seven action flags evaluated on the lowercased command. -/
def actionFlagsOf (normalized : List Char) : ActionFlags :=
  { develop := matchesAny normalized developKeywords
    debug := matchesAny normalized debugKeywords
    optimize := matchesAny normalized optimizeKeywords
    refactor := matchesAny normalized refactorKeywords
    test := matchesAny normalized testKeywords
    document := matchesAny normalized documentKeywords
    analyze := matchesAny normalized analyzeKeywords }

/-- The number of action flags set; in the source each action has exactly one
pattern and `matchCount` is incremented once per matching action, so it equals
the number of true flags. -/
def countTrueActions (a : ActionFlags) : Nat :=
  ([a.develop, a.debug, a.optimize, a.refactor, a.test, a.document, a.analyze].filter id).length

/-- JS `Math.min` on the rational model of JS numbers. -/
def jsMin (a b : ℚ) : ℚ := if a ≤ b then a else b

/-- UltraAgent.analyzeIntent. -/
def analyzeIntent (command : String) : CommandIntent :=
  let normalized := command.data.map Char.toLower
  let targetFolder := (extractTargetFolder command.data).map String.mk
  let targetFile := (extractTargetFile command.data).map String.mk
  let actions := actionFlagsOf normalized
  let matchCount := countTrueActions actions
  { targetFolder := targetFolder
    targetFile := targetFile
    actions := actions
    fullCommand := command
    confidence := jsMin 1 ((matchCount : ℚ) / 3) }

/-! ### Filesystem model

The writes of UltraAgent.executeFileOperations go through `path.join` with the
fixed working directory; the model keys the store by the working-directory
relative path used throughout (the same string that is recorded in the
result). The store is an association list where a write shadows earlier
entries, plus the list of directories created by `mkdirSync`. The model is
total: the per-block try/catch of the source never fires. -/

structure FS where
  files : List (String × String)
  dirs : List String
deriving DecidableEq

def FS.existsFile (fs : FS) (p : String) : Bool := fs.files.any (fun e => e.1 == p)

def FS.read (fs : FS) (p : String) : Option String :=
  (fs.files.find? (fun e => e.1 == p)).map (fun e => e.2)

def FS.write (fs : FS) (p c : String) : FS := { fs with files := (p, c) :: fs.files }

def FS.dirExists (fs : FS) (d : String) : Bool := fs.dirs.contains d

def FS.mkdir (fs : FS) (d : String) : FS := { fs with dirs := d :: fs.dirs }

def emptyFS : FS := { files := [], dirs := [] }

/-- Node `path.dirname` on the relative paths used here: everything before
the last forward slash, `"."` when there is none. -/
def dirname (p : String) : String :=
  let parts := jsSplit '/' p.data
  if parts.length ≤ 1 then "." else String.mk (List.intercalate ['/'] parts.dropLast)

/-! ### File operations (UltraAgent.executeFileOperations) -/

/-- The error strings pushed into ExecutionResult.errors, as structured
values: the source formats them with string interpolation, which is
presentational. -/
inductive ExecError where
  | invalidCode (path : Option String) (errors : List String)
  | noFilePath
deriving DecidableEq

structure ExecutionResult where
  success : Bool
  filesCreated : List String
  filesModified : List String
  errors : List ExecError
deriving DecidableEq

/-- JS `a || b` on optional strings: an absent or empty (falsy) `a` falls
back to `b`. Used for `block.path || intent.targetFile`. -/
def jsOrStr : Option String → Option String → Option String
  | some s, b => if s == "" then b else some s
  | none, b => b

/-- The loop body of UltraAgent.executeFileOperations, threading the
filesystem and the accumulated result through the blocks in order: an invalid
block is recorded and skipped; a block without a resolvable path is recorded
and skipped; otherwise the parent directory is created if needed and the full
code is written, recording created versus modified by pre-existence. -/
def executeFileOpsGo (intent : CommandIntent) :
    FS → List CodeBlock → ExecutionResult → FS × ExecutionResult
  | fs, [], r => (fs, r)
  | fs, b :: bs, r =>
    let validation := validateCode b.code b.language
    if !validation.isValid then
      executeFileOpsGo intent fs bs
        { r with errors := r.errors ++ [ExecError.invalidCode b.path validation.errors] }
    else
      match jsOrStr b.path intent.targetFile with
      | none => executeFileOpsGo intent fs bs { r with errors := r.errors ++ [ExecError.noFilePath] }
      | some filePath =>
        if filePath == "" then
          executeFileOpsGo intent fs bs { r with errors := r.errors ++ [ExecError.noFilePath] }
        else
          let preexists := fs.existsFile filePath
          let fs1 := if !(fs.dirExists (dirname filePath)) then fs.mkdir (dirname filePath) else fs
          let fs2 := fs1.write filePath b.code
          if preexists then
            executeFileOpsGo intent fs2 bs
              { r with filesModified := r.filesModified ++ [filePath] }
          else
            executeFileOpsGo intent fs2 bs
              { r with filesCreated := r.filesCreated ++ [filePath] }

/-- UltraAgent.executeFileOperations. -/
def executeFileOperations (fs : FS) (blocks : List CodeBlock) (intent : CommandIntent) :
    FS × ExecutionResult :=
  executeFileOpsGo intent fs blocks
    { success := true, filesCreated := [], filesModified := [], errors := [] }

/-- Accumulator-free reformulation of the block loop, used to reason about
the loop compositionally: it performs the same branch structure as
`executeFileOpsGo` but builds each result list by prepending the entry of the
head block to the result of the tail. `executeFileOperations` is proved equal
to it below. -/
def applyBlocks (intent : CommandIntent) : FS → List CodeBlock → FS × ExecutionResult
  | fs, [] => (fs, { success := true, filesCreated := [], filesModified := [], errors := [] })
  | fs, b :: bs =>
    let validation := validateCode b.code b.language
    if !validation.isValid then
      let res := applyBlocks intent fs bs
      (res.1, { res.2 with
        errors := ExecError.invalidCode b.path validation.errors :: res.2.errors })
    else
      match jsOrStr b.path intent.targetFile with
      | none =>
        let res := applyBlocks intent fs bs
        (res.1, { res.2 with errors := ExecError.noFilePath :: res.2.errors })
      | some filePath =>
        if filePath == "" then
          let res := applyBlocks intent fs bs
          (res.1, { res.2 with errors := ExecError.noFilePath :: res.2.errors })
        else
          let preexists := fs.existsFile filePath
          let fs1 := if !(fs.dirExists (dirname filePath)) then fs.mkdir (dirname filePath) else fs
          let fs2 := fs1.write filePath b.code
          let res := applyBlocks intent fs2 bs
          if preexists then
            (res.1, { res.2 with filesModified := filePath :: res.2.filesModified })
          else
            (res.1, { res.2 with filesCreated := filePath :: res.2.filesCreated })

/-! ### Confirmation and response processing -/

/-- UltraAgent.requestConfirmation, as a function of the answer the user
types: `answer.toLowerCase() === 'y' || answer.toLowerCase() === 's'`. -/
def requestConfirmation (answer : String) : Bool :=
  jsToLower answer == "y" || jsToLower answer == "s"

/-- UltraAgent.processResponse as a function of the user answer and the
filesystem. Displaying the response and the summary is console-only; the
function returns the updated filesystem and the ExecutionResult when one was
computed. Declining, and the no-code-blocks case, return before any file
operation. -/
def processResponse (fs : FS) (answer : String) (response : String)
    (intent : CommandIntent) : FS × Option ExecutionResult :=
  let confirmed := requestConfirmation answer
  if !confirmed then (fs, none)
  else
    let codeBlocks := extractCodeBlocks response
    if codeBlocks.isEmpty then (fs, none)
    else
      let fsr := executeFileOperations fs codeBlocks intent
      (fsr.1, some fsr.2)

/-! ### Prompt building and the AI stage (UltraAgent.buildPrompt,
executeWithAI, execute) -/

/-- The slice of ProjectContext consumed by prompt building: the basename of
the working directory, the detected technologies and the collected files. -/
structure ProjectContext where
  root : String
  technologies : List String
  files : List String
deriving DecidableEq

/-- UltraAgent.buildContextSection (empty technologies and falsy target
fields are omitted, the file list is capped at 15). -/
def buildContextSection (ctx : ProjectContext) (intent : CommandIntent) : String :=
  let parts : List String :=
    ["Root: " ++ ctx.root]
    ++ (if ctx.technologies.length > 0 then
          ["Technologies: " ++ String.intercalate ", " ctx.technologies]
        else [])
    ++ ["Files: " ++ toString ctx.files.length ++ " code files"]
    ++ (match intent.targetFolder with
        | some f => if f == "" then [] else ["Target Folder: " ++ f]
        | none => [])
    ++ (match intent.targetFile with
        | some f => if f == "" then [] else ["Target File: " ++ f]
        | none => [])
    ++ (if ctx.files.length > 0 then
          ["\nRelevant Files:"] ++ (ctx.files.take 15).map (fun f => "  - " ++ f)
        else [])
  String.intercalate "\n" parts

/-- UltraAgent.buildActionDescription. -/
def buildActionDescription (actions : ActionFlags) : String :=
  let tasks : List String :=
    (if actions.develop then ["Develop/implement new functionality"] else [])
    ++ (if actions.debug then ["Debug and fix errors"] else [])
    ++ (if actions.optimize then ["Optimize performance"] else [])
    ++ (if actions.refactor then ["Refactor and clean code"] else [])
    ++ (if actions.test then ["Create comprehensive tests"] else [])
    ++ (if actions.document then ["Add documentation"] else [])
    ++ (if actions.analyze then ["Analyze and review code"] else [])
  if tasks.length > 0 then String.intercalate "\n- " tasks else "General code improvement"

/-- UltraAgent.buildPrompt: the full template of the source. -/
def buildPrompt (ctx : ProjectContext) (intent : CommandIntent)
    (command targetContent : String) : String :=
  let contextInfo := buildContextSection ctx intent
  let actionDescription := buildActionDescription intent.actions
  "You are an expert software engineer. Execute this task with precision and completeness.\n\nCOMMAND:\n"
    ++ command
    ++ "\n\nPROJECT CONTEXT:\n"
    ++ contextInfo
    ++ "\n\n"
    ++ (if targetContent == "" then "" else
        "CURRENT FILE CONTENT:\n```\n" ++ targetContent ++ "\n```\n")
    ++ "\nTASK REQUIREMENTS:\n"
    ++ actionDescription
    ++ "\n\nCRITICAL INSTRUCTIONS:\n1. Analyze existing code structure and patterns\n2. Identify all issues and improvement opportunities\n3. Implement complete, production-ready solutions\n4. Return FULL file content, not snippets\n5. Include ALL necessary imports and dependencies\n6. Follow language-specific best practices\n7. Ensure code is immediately usable\n\nMANDATORY RESPONSE FORMAT:\n\n## Analysis\n[Detailed analysis of the problem/task]\n\n## Changes Made\n[Comprehensive list of all modifications]\n\n## Code\nFile: [exact/path/to/file.ext]\n```[language]\n[COMPLETE FILE CODE HERE]\n```\n\n## Next Steps\n[Recommended follow-up actions]\n\nQUALITY REQUIREMENTS:\n- Complete, working code (no placeholders)\n- Proper error handling\n- Type safety (if applicable)\n- Clean, maintainable structure\n- Production-ready quality"

/-- UltraAgent.estimateTokens: `Math.ceil(text.length / 4)`. -/
def estimateTokens (text : String) : Nat := (text.length + 3) / 4

/-- UltraAgent.readTargetFile: the file content truncated to
`MAX_CONTEXT_SIZE`, or the empty string when the file is absent. -/
def readTargetFile (fs : FS) (filename : String) : String :=
  match fs.read filename with
  | some content => String.mk (content.data.take MAX_CONTEXT_SIZE)
  | none => ""

/-- UltraAgent.executeWithAI, with the AI client and the usage-tracking
collaborator (ConfigManager.trackTokenUsage, which can itself throw: it
re-loads the configuration, which throws on a missing API key, and saves it)
passed as fallible oracles. The tracking call is awaited with no try/catch in
the source, so its error propagates. -/
def executeWithAI (ask : String → Except String String)
    (trackTokenUsage : Nat → String → Except String Unit)
    (ctx : ProjectContext) (fs : FS) (intent : CommandIntent)
    (originalCommand : String) : Except String String :=
  let targetContent :=
    match intent.targetFile with
    | some f => if f == "" then "" else readTargetFile fs f
    | none => ""
  let prompt := buildPrompt ctx intent originalCommand targetContent
  match ask prompt with
  | Except.error e => Except.error e
  | Except.ok response =>
    let tokens := estimateTokens (prompt ++ response)
    match trackTokenUsage tokens "ultra-agent" with
    | Except.error e => Except.error e
    | Except.ok _ => Except.ok response

/-- UltraAgent.execute: intent analysis, project scan (the scanned context is
a parameter here), the AI stage, then response processing; any error thrown
inside the try block is caught by the surrounding catch, which reports it and
ends the command without processing the response. Returns the filesystem, the
ExecutionResult if one was computed, and the caught error if any. -/
def executeCommand (ask : String → Except String String)
    (trackTokenUsage : Nat → String → Except String Unit)
    (ctx : ProjectContext) (fs : FS) (command answer : String) :
    FS × Option ExecutionResult × Option String :=
  let intent := analyzeIntent command
  match executeWithAI ask trackTokenUsage ctx fs intent command with
  | Except.error e => (fs, none, some e)
  | Except.ok response =>
    let fsr := processResponse fs answer response intent
    (fsr.1, fsr.2, none)

/-! ### Project scanning (UltraAgent.scanDirectory / scanProject) -/

/-- A directory listing as seen by `readdirSync` plus `statSync` on each
item: a sequence of entries in the deterministic listing order, where an
entry is a file with its size or a subdirectory with its own listing. -/
inductive Entries where
  | done
  | file (name : String) (size : Nat) (rest : Entries)
  | dir (name : String) (children : Entries) (rest : Entries)
deriving DecidableEq

/-- The mutable scan state of the project context: collected relative paths
and the metadata counters. -/
structure ScanState where
  files : List String
  codeFileCount : Nat
  totalSize : Nat
deriving DecidableEq

/-- Relative path of an item inside the prefix directory (`path.relative`
of the joined path). -/
def joinRel (pre name : String) : String :=
  if pre == "" then name else pre ++ "/" ++ name

/-- UltraAgent.isRelevantFile. -/
def isRelevantFile (filename : String) : Bool :=
  RELEVANT_EXTENSIONS.any (fun ext => hasSuffixL filename.data ext.data)

/-- UltraAgent.shouldIgnoreItem. -/
def shouldIgnoreItem (name : String) : Bool :=
  IGNORE_DIRECTORIES.contains name || hasPrefixL name.data ".".data

/-- The loop of UltraAgent.scanDirectory over a directory listing. For a
subdirectory the guard at the entry of the recursive `scanDirectory` call is
inlined: the recursion is skipped when the depth bound is exceeded or the
file cap has been reached at that moment. -/
def scanEntries : Nat → String → Entries → ScanState → ScanState
  | _, _, Entries.done, st => st
  | depth, pre, Entries.file name size rest, st =>
    if shouldIgnoreItem name then scanEntries depth pre rest st
    else if isRelevantFile name then
      scanEntries depth pre rest
        { files := st.files ++ [joinRel pre name]
          codeFileCount := st.codeFileCount + 1
          totalSize := st.totalSize + size }
    else scanEntries depth pre rest st
  | depth, pre, Entries.dir name children rest, st =>
    if shouldIgnoreItem name then scanEntries depth pre rest st
    else
      let st2 :=
        if depth + 1 > MAX_SCAN_DEPTH || MAX_SCAN_FILES ≤ st.files.length then st
        else scanEntries (depth + 1) (joinRel pre name) children st
      scanEntries depth pre rest st2

/-- UltraAgent.scanDirectory: the entry guard, then the listing loop. -/
def scanDirectory (depth : Nat) (pre : String) (entries : Entries)
    (st : ScanState) : ScanState :=
  if depth > MAX_SCAN_DEPTH || MAX_SCAN_FILES ≤ st.files.length then st
  else scanEntries depth pre entries st

def initialScanState : ScanState := { files := [], codeFileCount := 0, totalSize := 0 }

/-- UltraAgent.scanProject, restricted to the directory walk (technology
detection reads package.json and touches neither the collected files nor the
walk). -/
def scanProject (tree : Entries) : ScanState :=
  scanDirectory 0 "" tree initialScanState

/-- Comparison definition following the words of the spec: every file of the
tree whose chain of ancestor directories below the root has length at most
`budget`, with its relative path. A file directly in the root needs no
descent; each directory level consumes one unit of budget. -/
def filesWithinDepth : Nat → String → Entries → List String
  | _, _, Entries.done => []
  | budget, pre, Entries.file name _ rest =>
    joinRel pre name :: filesWithinDepth budget pre rest
  | budget, pre, Entries.dir name children rest =>
    (if budget == 0 then [] else filesWithinDepth (budget - 1) (joinRel pre name) children)
      ++ filesWithinDepth budget pre rest

/-! ### Spec-side comparison definitions -/

/-- All seven action flags false: the neutral value of the spec. -/
def allFalseActions : ActionFlags :=
  { develop := false, debug := false, optimize := false, refactor := false,
    test := false, document := false, analyze := false }

/-- Spec-side predicate: no action-keyword pattern of analyzeIntent matches
the command (each of the seven patterns is tested against the lowercased
command, as in the source). -/
def noActionKeyword (command : String) : Bool :=
  let normalized := command.data.map Char.toLower
  !(matchesAny normalized developKeywords) && !(matchesAny normalized debugKeywords) &&
    !(matchesAny normalized optimizeKeywords) && !(matchesAny normalized refactorKeywords) &&
    !(matchesAny normalized testKeywords) && !(matchesAny normalized documentKeywords) &&
    !(matchesAny normalized analyzeKeywords)

/-- The initial ExecutionResult of executeFileOperations. -/
def initExecResult : ExecutionResult :=
  { success := true, filesCreated := [], filesModified := [], errors := [] }

/-! ### Concrete inputs used by counterexamples and witnesses -/

/-- A well-formed TypeScript snippet of 230 characters (balanced brackets;
'\x7b' and '\x7d' are the brace characters). -/
def goodCode : String :=
  "export function addNumbers(a: number, b: number): number \x7b\n  const total = a + b;\n  return total;\n\x7d\n\nexport function mulNumbers(a: number, b: number): number \x7b\n  const product = a * b;\n  return product;\n\x7d\nexport const VERSION = 1;"

/-- A second well-formed snippet, distinct from `goodCode`. -/
def goodCodeB : String := goodCode ++ "\nexport const FLAG = true;"

/-- A 210-character TypeScript snippet with three opening braces but only one
closing brace: long enough to be extracted, but invalid for validateCode. -/
def badCode : String :=
  "export function brokenOne(a: number): number \x7b\n  if (a > 0) \x7b\n    return a;\n  \x7d\n  return 0;\n\nexport function brokenTwo(b: number): number \x7b\n  const doubled = b + b;\n  const limit = 123456789;\n  return doubled;"

/-- A response whose block is preceded by a File: label. -/
def respLabeled : String := "## Code\nFile: src/x.ts\n```ts\n" ++ goodCode ++ "\n```\n"

/-- A response whose block is preceded only by a backtick-quoted filename,
with no File:/Arquivo:/Path:/Caminho: label anywhere. -/
def respBacktick : String := "Update `src/y.ts`\n```ts\n" ++ goodCode ++ "\n```\n"

/-- A response whose lookback window contains neither pattern. -/
def respUnlabeled : String := "Here is code:\n```ts\n" ++ goodCode ++ "\n```\n"

/-- A response with a labeled `typescript` block whose braces are
unbalanced. -/
def respInvalid : String := "File: src/bad.ts\n```typescript\n" ++ badCode ++ "\n```\n"

/-- An intent with no targets and no actions. -/
def emptyIntent : CommandIntent :=
  { targetFolder := none, targetFile := none, actions := allFalseActions,
    fullCommand := "", confidence := 0 }

/-- A placeholder code block (used only as a `headD` default). -/
def emptyBlock : CodeBlock :=
  { code := "", language := "", path := none,
    metadata := { lineCount := 0, charCount := 0, hasImports := false, hasFunctions := false } }

/-- The invalid block of `respInvalid`, written out. -/
def invalidBlock : CodeBlock :=
  { code := badCode, language := "typescript", path := some "src/bad.ts",
    metadata := analyzeCodeBlock badCode.data }

/-- Two blocks resolving to the same path with different contents. -/
def blockA : CodeBlock :=
  { code := goodCode, language := "ts", path := some "src/x.ts",
    metadata := analyzeCodeBlock goodCode.data }

def blockB : CodeBlock :=
  { code := goodCodeB, language := "ts", path := some "src/x.ts",
    metadata := analyzeCodeBlock goodCodeB.data }

/-- A minimal project context. -/
def sampleContext : ProjectContext := { root := "app", technologies := [], files := [] }

/-- A one-file directory tree. -/
def sampleTree : Entries := Entries.file "a.ts" 1 Entries.done

/-- A flat directory listing with 51 relevant files (distinct names). -/
def flatTree51 : Entries :=
  (List.range 51).foldr
    (fun n acc => Entries.file (String.mk (List.replicate (n + 1) 'a') ++ ".ts") 1 acc)
    Entries.done

/-! ## Helper lemmas -/

/-- Every block returned by extractCodeBlocks carries a non-empty path,
because isValidCodeBlock rejects a missing, empty or extension-less path. -/
theorem extractCodeBlocks_path_nonempty (response : String) (b : CodeBlock)
    (h : b ∈ extractCodeBlocks response) :
    ∃ p : String, b.path = some p ∧ (p == "") = false := by
  unfold extractCodeBlocks at h
  rw [List.mem_filterMap] at h
  obtain ⟨rb, -, heq⟩ := h
  dsimp only at heq
  by_cases h1 : (trimL rb.code).length < MIN_CODE_LENGTH
  · simp [h1] at heq
  · by_cases h2 : isCommandExample (trimL rb.code) = true
    · simp [h1, h2] at heq
    · cases hp : extractPathBeforeBlock response.data rb.index with
      | none =>
        rw [hp] at heq
        simp [h1, h2, isValidCodeBlock] at heq
      | some cs =>
        rw [hp] at heq
        by_cases h3 : isValidCodeBlock (trimL rb.code) rb.language (some cs) = true
        · simp only [h1, if_false, h2, h3, if_true, Bool.false_eq_true] at heq
          have hb := Option.some.inj heq
          subst hb
          refine ⟨String.mk cs, ?_, ?_⟩
          · rfl
          · unfold isValidCodeBlock at h3
            by_cases hce : cs.isEmpty = true
            · simp [hce] at h3
            · have : cs ≠ [] := by
                intro hnil; rw [hnil] at hce; exact hce rfl
              rw [beq_eq_false_iff_ne]
              intro hmk
              exact this (by simpa using congrArg String.data hmk)
        · simp [h1, h2, h3] at heq

/-- The block loop never records the missing-path error when every block of
the list carries a non-empty path. -/
theorem executeFileOpsGo_noFilePath_free (intent : CommandIntent) (blocks : List CodeBlock) :
    ∀ (fs : FS) (r : ExecutionResult),
      (∀ b ∈ blocks, ∃ p : String, b.path = some p ∧ (p == "") = false) →
      ExecError.noFilePath ∉ r.errors →
      ExecError.noFilePath ∉ (executeFileOpsGo intent fs blocks r).2.errors := by
  induction blocks with
  | nil => intro fs r _ hr; simpa [executeFileOpsGo] using hr
  | cons b bs ih =>
    intro fs r hall hr
    obtain ⟨p, hp, hpe⟩ := hall b (List.mem_cons_self b bs)
    have hall' : ∀ b ∈ bs, ∃ p : String, b.path = some p ∧ (p == "") = false :=
      fun x hx => hall x (List.mem_cons_of_mem b hx)
    rw [executeFileOpsGo]
    by_cases hv : (validateCode b.code b.language).isValid = true
    · simp only [hv, Bool.not_true, Bool.false_eq_true, if_false, hp, jsOrStr, hpe]
      split <;> exact ih _ _ hall' hr
    · rw [Bool.not_eq_true] at hv
      simp only [hv, Bool.not_false, if_true]
      refine ih _ _ hall' ?_
      simp only [List.mem_append, List.mem_singleton]
      rintro (hin | hin)
      · exact hr hin
      · exact ExecError.noConfusion hin

/-- The accumulator-based loop equals the accumulator-free reformulation,
with the accumulator prepended componentwise. -/
theorem executeFileOpsGo_eq_applyBlocks (intent : CommandIntent) (bs : List CodeBlock) :
    ∀ (fs : FS) (r : ExecutionResult),
      executeFileOpsGo intent fs bs r =
        ((applyBlocks intent fs bs).1,
         { success := r.success
           filesCreated := r.filesCreated ++ (applyBlocks intent fs bs).2.filesCreated
           filesModified := r.filesModified ++ (applyBlocks intent fs bs).2.filesModified
           errors := r.errors ++ (applyBlocks intent fs bs).2.errors }) := by
  induction bs with
  | nil => intro fs r; simp [executeFileOpsGo, applyBlocks]
  | cons b bs ih =>
    intro fs r
    rw [executeFileOpsGo]
    conv_rhs => rw [applyBlocks]
    split
    · rw [ih]; simp
    · split
      · rw [ih]; simp
      · split
        · rw [ih]; simp
        · split
          · dsimp only
            split <;> (rw [ih]; simp)
          · dsimp only
            split <;> (rw [ih]; simp)

/-- The success flag of the accumulator-free loop is always true (the model
has no I/O failures, so the catch branch of the source never fires). -/
theorem applyBlocks_success (intent : CommandIntent) (bs : List CodeBlock) :
    ∀ fs : FS, (applyBlocks intent fs bs).2.success = true := by
  induction bs with
  | nil => intro fs; simp [applyBlocks]
  | cons b bs ih =>
    intro fs
    rw [applyBlocks]
    split
    · simpa using ih fs
    · split
      · simpa using ih fs
      · split
        · simpa using ih fs
        · split
          · dsimp only
            split <;> simpa using ih _
          · dsimp only
            split <;> simpa using ih _

/-- executeFileOperations coincides with the accumulator-free loop. -/
theorem executeFileOperations_eq_applyBlocks (fs : FS) (bs : List CodeBlock)
    (intent : CommandIntent) :
    executeFileOperations fs bs intent = applyBlocks intent fs bs := by
  rw [executeFileOperations, executeFileOpsGo_eq_applyBlocks]
  refine Prod.ext rfl ?_
  have hs := applyBlocks_success intent bs fs
  cases happ : applyBlocks intent fs bs with
  | mk f2 r2 =>
    rw [happ] at hs
    simp at hs ⊢
    cases r2
    simp_all

/-- Every file that any call of the scan loop adds lies within the remaining
depth budget `MAX_SCAN_DEPTH - depth` below the current prefix: a directory
is only descended into while `depth + 1 > MAX_SCAN_DEPTH` fails. -/
theorem scanEntries_files_subset (depth : Nat) (pre : String) (entries : Entries)
    (st : ScanState) (f : String)
    (h : f ∈ (scanEntries depth pre entries st).files) :
    f ∈ st.files ∨ f ∈ filesWithinDepth (MAX_SCAN_DEPTH - depth) pre entries := by
  match entries with
  | Entries.done =>
    rw [scanEntries] at h
    exact Or.inl h
  | Entries.file name size rest =>
    rw [scanEntries] at h
    rw [filesWithinDepth]
    by_cases hig : shouldIgnoreItem name = true
    · rw [if_pos hig] at h
      rcases scanEntries_files_subset depth pre rest st f h with h1 | h2
      · exact Or.inl h1
      · exact Or.inr (List.mem_cons_of_mem _ h2)
    · rw [if_neg hig] at h
      by_cases hrel : isRelevantFile name = true
      · rw [if_pos hrel] at h
        rcases scanEntries_files_subset depth pre rest _ f h with h1 | h2
        · rcases List.mem_append.mp h1 with h3 | h3
          · exact Or.inl h3
          · exact Or.inr (List.mem_cons.mpr (Or.inl (List.mem_singleton.mp h3)))
        · exact Or.inr (List.mem_cons_of_mem _ h2)
      · rw [if_neg hrel] at h
        rcases scanEntries_files_subset depth pre rest st f h with h1 | h2
        · exact Or.inl h1
        · exact Or.inr (List.mem_cons_of_mem _ h2)
  | Entries.dir name children rest =>
    rw [scanEntries] at h
    rw [filesWithinDepth]
    by_cases hig : shouldIgnoreItem name = true
    · rw [if_pos hig] at h
      rcases scanEntries_files_subset depth pre rest st f h with h1 | h2
      · exact Or.inl h1
      · exact Or.inr (List.mem_append.mpr (Or.inr h2))
    · rw [if_neg hig] at h
      dsimp only at h
      by_cases hg : (depth + 1 > MAX_SCAN_DEPTH || MAX_SCAN_FILES ≤ st.files.length) = true
      · rw [if_pos hg] at h
        rcases scanEntries_files_subset depth pre rest st f h with h1 | h2
        · exact Or.inl h1
        · exact Or.inr (List.mem_append.mpr (Or.inr h2))
      · rw [if_neg hg] at h
        rcases scanEntries_files_subset depth pre rest _ f h with h1 | h2
        · rcases scanEntries_files_subset (depth + 1) (joinRel pre name) children st f h1 with h3 | h4
          · exact Or.inl h3
          · refine Or.inr (List.mem_append.mpr (Or.inl ?_))
            have hl : ¬(MAX_SCAN_DEPTH < depth + 1) := by
              intro hlt
              simp [hlt] at hg
            have hd : depth + 1 ≤ MAX_SCAN_DEPTH := Nat.not_lt.mp hl
            have hbz : (MAX_SCAN_DEPTH - depth == 0) = false := by
              rw [beq_eq_false_iff_ne]
              omega
            rw [if_neg (by simp [hbz])]
            have harith : MAX_SCAN_DEPTH - depth - 1 = MAX_SCAN_DEPTH - (depth + 1) := by omega
            rw [harith]
            exact h4
        · exact Or.inr (List.mem_append.mpr (Or.inr h2))

/-! ## Claim theorems -/

/-- Claim C1, counterexample: validation is not advisory only. The response
`respInvalid` yields exactly one accepted block (a labeled 200+-character
typescript block with unbalanced braces); its validation reports
`isValid = false`, and executeFileOperations does NOT write it to its
resolved path: the filesystem is unchanged, nothing is created or modified,
and the finding is recorded in the error list rather than as a warning. -/
theorem c1_invalid_block_is_not_written :
    extractCodeBlocks respInvalid = [invalidBlock] ∧
    (validateCode invalidBlock.code invalidBlock.language).isValid = false ∧
    (executeFileOperations emptyFS (extractCodeBlocks respInvalid) emptyIntent).1 = emptyFS ∧
    (executeFileOperations emptyFS (extractCodeBlocks respInvalid) emptyIntent).2.filesCreated
      = [] ∧
    (executeFileOperations emptyFS (extractCodeBlocks respInvalid) emptyIntent).2.filesModified
      = [] ∧
    (executeFileOperations emptyFS (extractCodeBlocks respInvalid) emptyIntent).2.errors ≠ [] := by
  decide

/-- Claim C1, amended: a block whose validation reports errors
(`isValid = false`) blocks its own write: executeFileOperations skips it,
leaves the filesystem exactly as the remaining blocks alone would, records an
error entry for it, and otherwise produces the same result as for the
remaining blocks. Only findings that keep `isValid = true` (warnings,
incompleteness) are advisory. -/
theorem c1_invalid_block_skipped_and_recorded (fs : FS) (intent : CommandIntent)
    (b : CodeBlock) (bs : List CodeBlock)
    (h : (validateCode b.code b.language).isValid = false) :
    executeFileOperations fs (b :: bs) intent =
      ((executeFileOperations fs bs intent).1,
       { (executeFileOperations fs bs intent).2 with
         errors := ExecError.invalidCode b.path (validateCode b.code b.language).errors ::
           (executeFileOperations fs bs intent).2.errors }) := by
  rw [executeFileOperations_eq_applyBlocks, executeFileOperations_eq_applyBlocks]
  rw [applyBlocks]
  simp [h]

/-- Witness for C1: the amended theorem applied to the concrete invalid
block of `respInvalid`. -/
theorem c1_invalid_block_skipped_and_recorded_witness :
    (validateCode invalidBlock.code invalidBlock.language).isValid = false ∧
    executeFileOperations emptyFS [invalidBlock] emptyIntent =
      ((executeFileOperations emptyFS [] emptyIntent).1,
       { (executeFileOperations emptyFS [] emptyIntent).2 with
         errors := ExecError.invalidCode invalidBlock.path
           (validateCode invalidBlock.code invalidBlock.language).errors ::
           (executeFileOperations emptyFS [] emptyIntent).2.errors }) :=
  ⟨by decide, c1_invalid_block_skipped_and_recorded emptyFS emptyIntent invalidBlock [] (by decide)⟩

/-- Claim C2: if the user declines the confirmation prompt, processResponse
returns before extracting blocks or touching the filesystem: the store (files
and directories alike) is exactly the input store and no ExecutionResult is
computed. -/
theorem c2_decline_leaves_filesystem_untouched (fs : FS) (answer response : String)
    (intent : CommandIntent) (h : requestConfirmation answer = false) :
    processResponse fs answer response intent = (fs, none) := by
  simp [processResponse, h]

/-- Witness for C2 at the declining answer `n`. -/
theorem c2_decline_leaves_filesystem_untouched_witness :
    requestConfirmation "n" = false ∧
    processResponse emptyFS "n" respLabeled emptyIntent = (emptyFS, none) :=
  ⟨by decide, c2_decline_leaves_filesystem_untouched emptyFS "n" respLabeled emptyIntent (by decide)⟩

/-- Claim C3, counterexample: a block with NO File:/Path:-style label
anywhere in its lookback window is still returned with a path when the
window ends with a backtick-quoted filename (the second lookback pattern of
extractPathBeforeBlock), so the claimed equivalence with File:/Path: labels
fails. -/
theorem c3_backtick_label_accepted_without_file_label :
    (extractCodeBlocks respBacktick).map (fun b => b.path) = [some "src/y.ts"] := by decide

/-- Claim C3, amended: acceptance with a path is decided by the two lookback
patterns in order: a `File: src/x.ts` label yields the path `src/x.ts`; a
backtick-quoted filename ending the window also yields its path even with no
File:/Path:-style label; with neither pattern in the window the block is
dropped even though its code is identical and syntactically valid. -/
theorem c3_lookback_patterns_decide_acceptance :
    (extractCodeBlocks respLabeled).map (fun b => b.path) = [some "src/x.ts"] ∧
    (extractCodeBlocks respBacktick).map (fun b => b.path) = [some "src/y.ts"] ∧
    extractCodeBlocks respUnlabeled = [] := by decide

/-- Claim C4, counterexample: when the usage-tracking collaborator throws,
the command does not complete normally: the error propagates out of
executeWithAI, the top-level catch reports it, and the response is never
processed (no ExecutionResult). -/
theorem c4_tracking_error_aborts_command :
    executeCommand (fun _ => Except.ok respLabeled) (fun _ _ => Except.error "track boom")
      sampleContext emptyFS "create hello.ts" "y" = (emptyFS, none, some "track boom") := rfl

/-- Claim C4, amended: a failing trackTokenUsage call is not best-effort: if
the AI call succeeds but tracking always throws `e`, the whole command ends
with the caught error `e`, the filesystem untouched and no ExecutionResult
computed. -/
theorem c4_tracking_error_propagates (ask : String → Except String String)
    (trackTokenUsage : Nat → String → Except String Unit)
    (ctx : ProjectContext) (fs : FS) (command answer resp e : String)
    (hask : ∀ p, ask p = Except.ok resp)
    (htrack : ∀ t lbl, trackTokenUsage t lbl = Except.error e) :
    executeCommand ask trackTokenUsage ctx fs command answer = (fs, none, some e) := by
  simp [executeCommand, executeWithAI, hask, htrack]

/-- Witness for C4 with concrete oracles. -/
theorem c4_tracking_error_propagates_witness :
    executeCommand (fun _ => Except.ok "done") (fun _ _ => Except.error "track boom")
      sampleContext emptyFS "create hello.ts" "y" = (emptyFS, none, some "track boom") :=
  c4_tracking_error_propagates _ _ sampleContext emptyFS "create hello.ts" "y" "done"
    "track boom" (fun _ => rfl) (fun _ _ => rfl)

/-- Claim C5, counterexample: the 50-file cap is checked only when entering a
directory, never between the files of one listing, so a flat root directory
of 51 relevant files yields 51 collected entries, exceeding the cap. -/
theorem c5_file_cap_exceeded_by_flat_directory :
    (scanProject flatTree51).files.length = 51 := by decide

/-- Claim C5, amended: the depth half of the claim holds: scanProject never
collects a file lying below more than `MAX_SCAN_DEPTH` (4) directory levels;
the cap of 50 files only stops further directories from being entered and the
collected list can exceed it by the remainder of listings already entered. -/
theorem c5_depth_bound_holds (tree : Entries) (f : String)
    (h : f ∈ (scanProject tree).files) :
    f ∈ filesWithinDepth MAX_SCAN_DEPTH "" tree := by
  unfold scanProject scanDirectory at h
  rw [if_neg (by simp [MAX_SCAN_DEPTH, MAX_SCAN_FILES, initialScanState])] at h
  rcases scanEntries_files_subset 0 "" tree initialScanState f h with h1 | h2
  · simp [initialScanState] at h1
  · simpa using h2

/-- Witness for C5 on a one-file tree. -/
theorem c5_depth_bound_holds_witness :
    ("a.ts" ∈ (scanProject sampleTree).files) ∧
    "a.ts" ∈ filesWithinDepth MAX_SCAN_DEPTH "" sampleTree :=
  ⟨by decide, c5_depth_bound_holds sampleTree "a.ts" (by decide)⟩

/-- Claim C6: extractCodeBlocks never returns a block whose (trimmed) code is
shorter than MIN_CODE_LENGTH (200) characters, regardless of language tag. -/
theorem c6_extracted_blocks_meet_min_length (response : String) (b : CodeBlock)
    (h : b ∈ extractCodeBlocks response) : MIN_CODE_LENGTH ≤ b.code.length := by
  unfold extractCodeBlocks at h
  rw [List.mem_filterMap] at h
  obtain ⟨rb, -, heq⟩ := h
  dsimp only at heq
  by_cases h1 : (trimL rb.code).length < MIN_CODE_LENGTH
  · simp [h1] at heq
  · by_cases h2 : isCommandExample (trimL rb.code) = true
    · simp [h1, h2] at heq
    · by_cases h3 : isValidCodeBlock (trimL rb.code) rb.language
          (extractPathBeforeBlock response.data rb.index) = true
      · simp only [h1, if_false, h2, h3, if_true, Bool.false_eq_true] at heq
        have hb := Option.some.inj heq
        subst hb
        simpa [String.length] using Nat.le_of_not_lt h1
      · simp [h1, h2, h3] at heq

/-- Witness for C6 at the block of `respLabeled`. -/
theorem c6_extracted_blocks_meet_min_length_witness :
    ((extractCodeBlocks respLabeled).headD emptyBlock ∈ extractCodeBlocks respLabeled) ∧
    MIN_CODE_LENGTH ≤ ((extractCodeBlocks respLabeled).headD emptyBlock).code.length :=
  ⟨by decide, c6_extracted_blocks_meet_min_length respLabeled _ (by decide)⟩

/-- Claim C7: analyzeIntent returns `confidence = min 1 (matched/3)` where
`matched` counts the action flags set, and a command matching no
action-keyword pattern gets all-false flags and confidence 0. -/
theorem c7_confidence_formula_and_no_keyword_case (command : String) :
    (analyzeIntent command).confidence =
      min 1 ((countTrueActions (analyzeIntent command).actions : ℚ) / 3) ∧
    (noActionKeyword command = true →
      (analyzeIntent command).actions = allFalseActions ∧
      (analyzeIntent command).confidence = 0) := by
  constructor
  · simp [analyzeIntent, jsMin, min_def]
  · intro h
    simp only [noActionKeyword, Bool.and_eq_true, Bool.not_eq_true'] at h
    obtain ⟨⟨⟨⟨⟨⟨h1, h2⟩, h3⟩, h4⟩, h5⟩, h6⟩, h7⟩ := h
    constructor
    · simp [analyzeIntent, actionFlagsOf, allFalseActions, h1, h2, h3, h4, h5, h6, h7]
    · simp [analyzeIntent, actionFlagsOf, countTrueActions, jsMin, h1, h2, h3, h4, h5, h6, h7]

/-- Witness for C7 at the keyword-free command `hello world`. -/
theorem c7_confidence_formula_and_no_keyword_case_witness :
    noActionKeyword "hello world" = true ∧
    (analyzeIntent "hello world").actions = allFalseActions ∧
    (analyzeIntent "hello world").confidence = 0 :=
  ⟨by decide,
    ((c7_confidence_formula_and_no_keyword_case "hello world").2 (by decide)).1,
    ((c7_confidence_formula_and_no_keyword_case "hello world").2 (by decide)).2⟩

/-- Claim C8: two accepted blocks resolving to the same (fresh) path are both
applied in order: the first write creates the file, the second overwrites it
and is recorded as a modification, no errors occur, and the final content is
exactly the second block's code (last write wins, no merging). -/
theorem c8_last_write_wins (fs : FS) (intent : CommandIntent) (b1 b2 : CodeBlock)
    (p : String)
    (hp1 : b1.path = some p) (hp2 : b2.path = some p) (hne : (p == "") = false)
    (hv1 : (validateCode b1.code b1.language).isValid = true)
    (hv2 : (validateCode b2.code b2.language).isValid = true)
    (hex : fs.existsFile p = false) :
    ((executeFileOperations fs [b1, b2] intent).1).read p = some b2.code ∧
    (executeFileOperations fs [b1, b2] intent).2.filesCreated = [p] ∧
    (executeFileOperations fs [b1, b2] intent).2.filesModified = [p] ∧
    (executeFileOperations fs [b1, b2] intent).2.errors = [] := by
  simp only [executeFileOperations, executeFileOpsGo, hv1, hv2, hp1, hp2, jsOrStr, hne,
    Bool.not_true, Bool.false_eq_true, if_false, hex]
  split <;> split <;>
    simp_all [FS.existsFile, FS.write, FS.read, FS.mkdir]

/-- Witness for C8 with two concrete blocks writing `src/x.ts`. -/
theorem c8_last_write_wins_witness :
    (blockA.path = some "src/x.ts") ∧ (blockB.path = some "src/x.ts") ∧
    (("src/x.ts" : String) == "") = false ∧
    (validateCode blockA.code blockA.language).isValid = true ∧
    (validateCode blockB.code blockB.language).isValid = true ∧
    emptyFS.existsFile "src/x.ts" = false ∧
    ((executeFileOperations emptyFS [blockA, blockB] emptyIntent).1).read "src/x.ts" =
      some blockB.code :=
  ⟨rfl, rfl, by decide, by decide, by decide, by decide,
    (c8_last_write_wins emptyFS emptyIntent blockA blockB "src/x.ts" rfl rfl (by decide)
      (by decide) (by decide) (by decide)).1⟩

/-- Claim C9, counterexample: the answer `yes` is NOT accepted by the
confirmation prompt: the code compares the lowercased answer only against the
single characters y and s, so `yes` is treated as a decline. -/
theorem c9_yes_answer_declines : requestConfirmation "yes" = false := by decide

/-- Claim C9, amended: the prompt returns true exactly for a single-character
answer whose lowercase form is y or s (the Portuguese affirmative); every
other answer, including `yes` and the empty string, declines. -/
theorem c9_confirmation_accepts_single_letter (answer : String) :
    requestConfirmation answer = true ↔
      ∃ c : Char, answer.data = [c] ∧ (c.toLower = 'y' ∨ c.toLower = 's') := by
  unfold requestConfirmation jsToLower
  rcases answer with ⟨data⟩
  match data with
  | [] => simp [String.ext_iff]
  | [c] => simp [String.ext_iff]
  | c1 :: c2 :: rest => simp [String.ext_iff]

/-- Witness for C9: the amended characterization applied at the answer `y`. -/
theorem c9_confirmation_accepts_single_letter_witness :
    requestConfirmation "y" = true :=
  (c9_confirmation_accepts_single_letter "y").mpr ⟨'y', rfl, Or.inl rfl⟩

/-- Claim C10: every block returned by extractCodeBlocks has a defined,
non-empty path, the fallback `block.path || intent.targetFile` always
resolves to the block's own path, and consequently executeFileOperations
never records the missing-path error for blocks produced by
extractCodeBlocks. -/
theorem c10_extracted_blocks_always_carry_path (response : String) (fs : FS)
    (intent : CommandIntent) :
    (∀ b ∈ extractCodeBlocks response,
       ∃ p : String, b.path = some p ∧ p ≠ "" ∧ jsOrStr b.path intent.targetFile = b.path) ∧
    ExecError.noFilePath ∉
      (executeFileOperations fs (extractCodeBlocks response) intent).2.errors := by
  constructor
  · intro b hb
    obtain ⟨p, hp, hpe⟩ := extractCodeBlocks_path_nonempty response b hb
    refine ⟨p, hp, beq_eq_false_iff_ne.mp hpe, ?_⟩
    rw [hp]
    simp [jsOrStr, hpe]
  · refine executeFileOpsGo_noFilePath_free intent (extractCodeBlocks response) fs _ ?_ ?_
    · intro b hb; exact extractCodeBlocks_path_nonempty response b hb
    · simp

/-- Witness for C10 at the concrete labeled response. -/
theorem c10_extracted_blocks_always_carry_path_witness :
    ExecError.noFilePath ∉
      (executeFileOperations emptyFS (extractCodeBlocks respLabeled) emptyIntent).2.errors :=
  (c10_extracted_blocks_always_carry_path respLabeled emptyFS emptyIntent).2

end Vibecoder
